import Mathlib

/-!
Verification development for the sovereign_shell hybrid knowledge store
(vector index + property graph + GraphRAG retrieval).

The Python modules under src/sovereign_shell are shallowly embedded here:
SQLite tables become Lean lists, table rows become structures, SQL
statements become pure list operations, and Python floats become
rationals.  Python set iteration order is unspecified; frontiers and
visited sets are modelled as insertion-ordered duplicate-free lists,
which fixes one admissible order.  Every property proved below is
independent of that choice.
-/

namespace SovereignShell

/-! ## models/schemas.py -/

/-- Documentation category (models/schemas.py `Category`). -/
inductive Category
  | language | aspnet | blazor | ef_core | maui | minimal_apis
  | signalr | grpc | mlnet | azure_sdk | msbuild | roslyn | nuget | bcl
deriving DecidableEq, Repr

/-- The string `.value` of a `Category` member. -/
def Category.value : Category → String
  | .language => "language"
  | .aspnet => "aspnet"
  | .blazor => "blazor"
  | .ef_core => "ef_core"
  | .maui => "maui"
  | .minimal_apis => "minimal_apis"
  | .signalr => "signalr"
  | .grpc => "grpc"
  | .mlnet => "mlnet"
  | .azure_sdk => "azure_sdk"
  | .msbuild => "msbuild"
  | .roslyn => "roslyn"
  | .nuget => "nuget"
  | .bcl => "bcl"

/-- Declaration-order list of all `Category` members (Python enum iteration). -/
def Category.all : List Category :=
  [.language, .aspnet, .blazor, .ef_core, .maui, .minimal_apis,
   .signalr, .grpc, .mlnet, .azure_sdk, .msbuild, .roslyn, .nuget, .bcl]

/-- C# language versions (models/schemas.py `CSharpVersion`). -/
inductive CSharpVersion
  | v1_0 | v1_2 | v2_0 | v3_0 | v4_0 | v5_0 | v6_0
  | v7_0 | v7_1 | v7_2 | v7_3 | v8_0 | v9_0 | v10_0
  | v11_0 | v12_0 | v13_0 | v14_0
deriving DecidableEq, Repr

/-- The string `.value` of a `CSharpVersion` member. -/
def CSharpVersion.value : CSharpVersion → String
  | .v1_0 => "1.0"
  | .v1_2 => "1.2"
  | .v2_0 => "2.0"
  | .v3_0 => "3.0"
  | .v4_0 => "4.0"
  | .v5_0 => "5.0"
  | .v6_0 => "6.0"
  | .v7_0 => "7.0"
  | .v7_1 => "7.1"
  | .v7_2 => "7.2"
  | .v7_3 => "7.3"
  | .v8_0 => "8.0"
  | .v9_0 => "9.0"
  | .v10_0 => "10.0"
  | .v11_0 => "11.0"
  | .v12_0 => "12.0"
  | .v13_0 => "13.0"
  | .v14_0 => "14.0"

/-- Declaration-order list of all `CSharpVersion` members. -/
def CSharpVersion.all : List CSharpVersion :=
  [.v1_0, .v1_2, .v2_0, .v3_0, .v4_0, .v5_0, .v6_0,
   .v7_0, .v7_1, .v7_2, .v7_3, .v8_0, .v9_0, .v10_0,
   .v11_0, .v12_0, .v13_0, .v14_0]

/-- .NET runtime versions (models/schemas.py `DotNetVersion`). -/
inductive DotNetVersion
  | framework_1_0 | framework_1_1 | framework_2_0 | framework_3_0
  | framework_3_5 | framework_4_0 | framework_4_5 | framework_4_6
  | framework_4_7 | framework_4_8
  | core_1_0 | core_2_0 | core_2_1 | core_3_0 | core_3_1
  | net_5 | net_6 | net_7 | net_8 | net_9 | net_10
deriving DecidableEq, Repr

/-- The string `.value` of a `DotNetVersion` member. -/
def DotNetVersion.value : DotNetVersion → String
  | .framework_1_0 => ".NET Framework 1.0"
  | .framework_1_1 => ".NET Framework 1.1"
  | .framework_2_0 => ".NET Framework 2.0"
  | .framework_3_0 => ".NET Framework 3.0"
  | .framework_3_5 => ".NET Framework 3.5"
  | .framework_4_0 => ".NET Framework 4.0"
  | .framework_4_5 => ".NET Framework 4.5"
  | .framework_4_6 => ".NET Framework 4.6"
  | .framework_4_7 => ".NET Framework 4.7"
  | .framework_4_8 => ".NET Framework 4.8"
  | .core_1_0 => ".NET Core 1.0"
  | .core_2_0 => ".NET Core 2.0"
  | .core_2_1 => ".NET Core 2.1"
  | .core_3_0 => ".NET Core 3.0"
  | .core_3_1 => ".NET Core 3.1"
  | .net_5 => ".NET 5.0"
  | .net_6 => ".NET 6.0"
  | .net_7 => ".NET 7.0"
  | .net_8 => ".NET 8.0"
  | .net_9 => ".NET 9.0"
  | .net_10 => ".NET 10.0"

/-- Declaration-order list of all `DotNetVersion` members. -/
def DotNetVersion.all : List DotNetVersion :=
  [.framework_1_0, .framework_1_1, .framework_2_0, .framework_3_0,
   .framework_3_5, .framework_4_0, .framework_4_5, .framework_4_6,
   .framework_4_7, .framework_4_8,
   .core_1_0, .core_2_0, .core_2_1, .core_3_0, .core_3_1,
   .net_5, .net_6, .net_7, .net_8, .net_9, .net_10]

/-- Compile-validation status (models/schemas.py `ValidationStatus`). -/
inductive ValidationStatus
  | untested | compiles | fails
deriving DecidableEq, Repr

/-- The string `.value` of a `ValidationStatus` member. -/
def ValidationStatus.value : ValidationStatus → String
  | .untested => "untested"
  | .compiles => "compiles"
  | .fails => "fails"

/-- A .NET feature record (models/schemas.py `DotNetRecord`), as stored in
the `records` table of vectordb.py.  The stored `id` column is the primary
key and is modelled as a plain string. -/
structure DotNetRecord where
  id : String
  category : Category
  csharp_version : CSharpVersion
  dotnet_version : DotNetVersion
  feature_name : String
  description : String
  code_snippet : String
  legacy_equivalent : String
  nuget_packages : List String
  source_url : String
  validation_status : ValidationStatus
  validation_target : String
  validation_error : Option String
  tags : List String
deriving DecidableEq, Repr

/-! ## memory/graphdb.py — data classes and store state -/

/-- A typed graph node (graphdb.py `GraphNode`).  The JSON property bag is
modelled as an association list of strings. -/
structure GraphNode where
  id : String
  node_type : String
  name : String
  properties : List (String × String) := []
deriving DecidableEq, Repr

/-- A typed weighted directed edge (graphdb.py `GraphEdge`).  `eid` models
the AUTOINCREMENT integer primary key (`None` before insertion). -/
structure GraphEdge where
  eid : Option Nat
  source_id : String
  target_id : String
  relation : String
  weight : Rat := 1
  properties : List (String × String) := []
deriving DecidableEq, Repr

/-- Result of a graph traversal (graphdb.py `TraversalResult`). -/
structure TraversalResult where
  nodes : List GraphNode := []
  edges : List GraphEdge := []
deriving DecidableEq, Repr

/-- The state of the two SQLite graph tables.  `graph_nodes` has a TEXT
primary key on `id`; `graph_edges` has an AUTOINCREMENT key modelled by
`next_eid`. -/
structure GraphState where
  nodes : List GraphNode := []
  edges : List GraphEdge := []
  next_eid : Nat := 1
deriving DecidableEq, Repr

/-- Two edges collide when they share the (source, target, relation) triple. -/
def sameTriple (a b : GraphEdge) : Bool :=
  a.source_id = b.source_id && a.target_id = b.target_id && a.relation = b.relation

/-- `GraphDB.add_node`: `INSERT OR REPLACE` keyed on `id` (the conflicting
row is deleted and the new row appended). -/
def add_node (n : GraphNode) (g : GraphState) : GraphState :=
  { g with nodes := g.nodes.filter (fun m => m.id ≠ n.id) ++ [n] }

/-- One step of `GraphDB.add_nodes_batch`: `INSERT OR IGNORE` keyed on `id`. -/
def insertIgnoreNode (g : GraphState) (n : GraphNode) : GraphState :=
  if g.nodes.any (fun m => m.id = n.id) then g
  else { g with nodes := g.nodes ++ [n] }

/-- `GraphDB.add_nodes_batch`: inserts with `INSERT OR IGNORE`; the Python
counter increments for every row, ignored or not, so the returned count is
the batch length. -/
def add_nodes_batch (ns : List GraphNode) (g : GraphState) : Nat × GraphState :=
  (ns.length, ns.foldl insertIgnoreNode g)

/-- `GraphDB.get_node`: `SELECT * FROM graph_nodes WHERE id = ?` (at most
one row exists per id thanks to the primary key; we take the first). -/
def get_node (g : GraphState) (node_id : String) : Option GraphNode :=
  g.nodes.find? (fun n => n.id = node_id)

/-- `GraphDB.add_edge`: checks whether the (source, target, relation)
triple already exists; if so the call is a silent no-op, otherwise the row
is inserted with the next autoincrement id. -/
def add_edge (e : GraphEdge) (g : GraphState) : GraphState :=
  if g.edges.any (fun x => sameTriple x e) then g
  else { g with
    edges := g.edges ++ [{ e with eid := some g.next_eid }],
    next_eid := g.next_eid + 1 }

/-- `GraphDB.add_edges_batch`: folds `add_edge`; the counter increments on
every non-raising call, so the returned count is the batch length. -/
def add_edges_batch (es : List GraphEdge) (g : GraphState) : Nat × GraphState :=
  (es.length, es.foldl (fun s e => add_edge e s) g)

/-- `GraphDB.get_outgoing` without a relation filter. -/
def get_outgoing (g : GraphState) (node_id : String) : List GraphEdge :=
  g.edges.filter (fun e => e.source_id = node_id)

/-- `GraphDB.get_incoming` without a relation filter. -/
def get_incoming (g : GraphState) (node_id : String) : List GraphEdge :=
  g.edges.filter (fun e => e.target_id = node_id)

/-- `GraphDB.get_neighbors`: outgoing then incoming (node, edge) pairs for
edges whose far endpoint resolves, stably sorted by weight descending,
truncated to `max_neighbors`. -/
def get_neighbors (g : GraphState) (node_id : String) (max_neighbors : Nat) :
    List (GraphNode × GraphEdge) :=
  let outs := (get_outgoing g node_id).filterMap
    (fun e => (get_node g e.target_id).map (fun n => (n, e)))
  let ins := (get_incoming g node_id).filterMap
    (fun e => (get_node g e.source_id).map (fun n => (n, e)))
  ((outs ++ ins).mergeSort (fun a b => b.2.weight ≤ a.2.weight)).take max_neighbors

/-- Insert a key into an insertion-ordered duplicate-free list (models
`set.add`). -/
def setAdd (xs : List String) (x : String) : List String :=
  if xs.contains x then xs else xs ++ [x]

/-- Deduplicate a list preserving first occurrences (models `set(node_ids)`
iterated in one admissible order). -/
def setOfList (xs : List String) : List String :=
  xs.foldl setAdd []

/-- Intermediate state of `expand_neighbors`: visited ids, collected nodes,
collected edges, next frontier. -/
structure ExpandState where
  visited : List String
  nodes : List GraphNode
  edges : List GraphEdge
  frontier : List String
deriving Repr

/-- Inner body of one hop of `expand_neighbors`: record the traversed
edge; record the neighbor node (and extend visited and the next frontier)
only when its id is unvisited. -/
def visitNeighbor (acc2 : ExpandState) (ne : GraphNode × GraphEdge) : ExpandState :=
  let acc3 := { acc2 with edges := acc2.edges ++ [ne.2] }
  if acc3.visited.contains ne.1.id then acc3
  else { acc3 with
    visited := acc3.visited ++ [ne.1.id],
    nodes := acc3.nodes ++ [ne.1],
    frontier := setAdd acc3.frontier ne.1.id }

/-- Process one frontier node of a hop: fetch at most
`max_neighbors_per_hop` neighbors and visit each. -/
def visitFrontierNode (g : GraphState) (max_neighbors_per_hop : Nat)
    (acc : ExpandState) (nid : String) : ExpandState :=
  (get_neighbors g nid max_neighbors_per_hop).foldl visitNeighbor acc

/-- Body of one hop of `expand_neighbors`: every frontier node contributes
at most `max_neighbors_per_hop` neighbors; every traversed edge is
recorded; a neighbor node is recorded only when unvisited. -/
def hopStep (g : GraphState) (max_neighbors_per_hop : Nat) (st : ExpandState) :
    ExpandState :=
  st.frontier.foldl (visitFrontierNode g max_neighbors_per_hop) { st with frontier := [] }

/-- The hop loop of `expand_neighbors` (`for hop in range(max_hops)` with
the early break on an empty next frontier). -/
def expandLoop (g : GraphState) (max_neighbors_per_hop : Nat) :
    Nat → ExpandState → ExpandState
  | 0, st => st
  | h + 1, st =>
    let st2 := hopStep g max_neighbors_per_hop st
    if st2.frontier.isEmpty then st2
    else expandLoop g max_neighbors_per_hop h st2

/-- One step of the seed loop of `expand_neighbors`: append every
resolvable starting node (once per occurrence) and mark its id visited. -/
def seedStep (g : GraphState) (acc : List String × List GraphNode) (nid : String) :
    List String × List GraphNode :=
  match get_node g nid with
  | some n => (setAdd acc.1 nid, acc.2 ++ [n])
  | none => acc

/-- `GraphDB.expand_neighbors`: seeds the result with every resolvable
starting id (note: the Python seed loop appends once per *occurrence* in
`node_ids`, with no membership check), then runs the bounded hop loop. -/
def expand_neighbors (g : GraphState) (node_ids : List String)
    (max_hops : Nat) (max_neighbors_per_hop : Nat) : TraversalResult :=
  let seeded := node_ids.foldl (seedStep g) ([], [])
  let st0 : ExpandState :=
    { visited := seeded.1, nodes := seeded.2, edges := [],
      frontier := setOfList node_ids }
  let fin := expandLoop g max_neighbors_per_hop max_hops st0
  { nodes := fin.nodes, edges := fin.edges }

/-! ## memory/graph_builder.py -/

/-- Canonical id of a C# version node (`_version_node_id`). -/
def version_node_id (v : CSharpVersion) : String := "csharp:" ++ v.value

/-- Canonical id of a .NET runtime version node (`_runtime_node_id`). -/
def runtime_node_id (v : DotNetVersion) : String := "dotnet:" ++ v.value

/-- Canonical id of a category/framework node (`_category_node_id`). -/
def category_node_id (c : Category) : String := "framework:" ++ c.value

/-- Canonical id of a feature node (`_feature_node_id`). -/
def feature_node_id (r : DotNetRecord) : String := "feature:" ++ r.id

/-- Canonical id of a NuGet package node (`_package_node_id`). -/
def package_node_id (p : String) : String := "nuget:" ++ p.toLower

/-- Friendly display name per category (`names.get(cat, cat.value)`; the
lookup table covers every member). -/
def categoryDisplayName : Category → String
  | .language => "C# Language"
  | .aspnet => "ASP.NET Core"
  | .blazor => "Blazor"
  | .ef_core => "Entity Framework Core"
  | .maui => ".NET MAUI"
  | .minimal_apis => "Minimal APIs"
  | .signalr => "SignalR"
  | .grpc => "gRPC"
  | .mlnet => "ML.NET"
  | .azure_sdk => "Azure SDK"
  | .msbuild => "MSBuild"
  | .roslyn => "Roslyn"
  | .nuget => "NuGet"
  | .bcl => "Base Class Library"

/-- `_create_version_nodes`. -/
def create_version_nodes : List GraphNode :=
  CSharpVersion.all.map (fun v =>
    { id := version_node_id v, node_type := "csharp_version", name := "C# " ++ v.value })

/-- `_create_runtime_nodes`. -/
def create_runtime_nodes : List GraphNode :=
  DotNetVersion.all.map (fun v =>
    { id := runtime_node_id v, node_type := "dotnet_version", name := v.value })

/-- `_create_framework_nodes`. -/
def create_framework_nodes : List GraphNode :=
  Category.all.map (fun c =>
    { id := category_node_id c, node_type := "framework", name := categoryDisplayName c })

/-- `_FRAMEWORK_DEPS`. -/
def framework_deps : List (Category × Category) :=
  [(.blazor, .aspnet), (.minimal_apis, .aspnet), (.signalr, .aspnet),
   (.grpc, .aspnet), (.ef_core, .bcl)]

/-- `_VERSION_EVOLUTION`. -/
def version_evolution : List (CSharpVersion × CSharpVersion) :=
  [(.v1_0, .v1_2), (.v1_2, .v2_0), (.v2_0, .v3_0), (.v3_0, .v4_0),
   (.v4_0, .v5_0), (.v5_0, .v6_0), (.v6_0, .v7_0), (.v7_0, .v7_1),
   (.v7_1, .v7_2), (.v7_2, .v7_3), (.v7_3, .v8_0), (.v8_0, .v9_0),
   (.v9_0, .v10_0), (.v10_0, .v11_0), (.v11_0, .v12_0), (.v12_0, .v13_0),
   (.v13_0, .v14_0)]

/-- The nodes inserted by `seed_graph` in one batch. -/
def seedNodes : List GraphNode :=
  create_version_nodes ++ create_runtime_nodes ++ create_framework_nodes

/-- The edges inserted by `seed_graph`, in loop order: the version
evolution chain (weight 0.8) then the framework dependencies (weight 0.9). -/
def seedEdges : List GraphEdge :=
  version_evolution.map (fun p =>
    { eid := none, source_id := version_node_id p.1,
      target_id := version_node_id p.2, relation := "EVOLVED_INTO", weight := 0.8 })
  ++ framework_deps.map (fun p =>
    { eid := none, source_id := category_node_id p.1,
      target_id := category_node_id p.2, relation := "DEPENDS_ON", weight := 0.9 })

/-- `seed_graph`: one `add_nodes_batch` for all seed nodes, then one
`add_edge` per seed edge.  Returns the counts dict (nodes_added,
edges_added) and the new store state; the Python counters increment per
attempt, so they are the list lengths. -/
def seed_graph (g : GraphState) : (Nat × Nat) × GraphState :=
  let r1 := add_nodes_batch seedNodes g
  let g2 := seedEdges.foldl (fun s e => add_edge e s) r1.2
  ((r1.1, seedEdges.length), g2)

/-- `add_record_to_graph`: upserts the feature node, attempts the three
structural edges and one USES_PACKAGE edge per package (upserting the
package node first), and returns the `edges_created` counter, which
increments on every attempt whether or not `add_edge` inserted. -/
def add_record_to_graph (record : DotNetRecord) (g : GraphState) : Nat × GraphState :=
  let feature_id := feature_node_id record
  let g1 := add_node
    { id := feature_id, node_type := "feature", name := record.feature_name,
      properties := [("category", record.category.value),
                     ("csharp_version", record.csharp_version.value),
                     ("dotnet_version", record.dotnet_version.value),
                     ("validation_status", record.validation_status.value)] } g
  let g2 := add_edge
    { eid := none, source_id := feature_id,
      target_id := version_node_id record.csharp_version,
      relation := "INTRODUCED_IN" } g1
  let g3 := add_edge
    { eid := none, source_id := feature_id,
      target_id := runtime_node_id record.dotnet_version,
      relation := "REQUIRES_RUNTIME" } g2
  let g4 := add_edge
    { eid := none, source_id := feature_id,
      target_id := category_node_id record.category,
      relation := "PART_OF" } g3
  record.nuget_packages.foldl
    (fun (acc : Nat × GraphState) pkg =>
      let pkg_id := package_node_id pkg
      let s1 := add_node { id := pkg_id, node_type := "nuget_package", name := pkg } acc.2
      let s2 := add_edge
        { eid := none, source_id := feature_id, target_id := pkg_id,
          relation := "USES_PACKAGE" } s1
      (acc.1 + 1, s2))
    (3, g4)

/-! ## memory/vectordb.py -/

/-- State of the two record-store tables: `records` (TEXT primary key
`id`) and `record_embeddings` (one vector per record id). -/
structure VectorState where
  records : List DotNetRecord := []
  embeddings : List (String × List Rat) := []
deriving DecidableEq, Repr

/-- `VectorDB.insert`: `INSERT OR REPLACE` keyed on `id`. -/
def vdb_insert (record : DotNetRecord) (s : VectorState) : VectorState :=
  { s with records := s.records.filter (fun r => r.id ≠ record.id) ++ [record] }

/-- `VectorDB.get_by_id`. -/
def get_by_id (s : VectorState) (record_id : String) : Option DotNetRecord :=
  s.records.find? (fun r => r.id = record_id)

/-- `VectorDB.update_validation`: `UPDATE records SET validation_status,
validation_target, validation_error WHERE id = ?`. -/
def update_validation (s : VectorState) (record_id : String)
    (status : ValidationStatus) (target : String) (error : Option String) : VectorState :=
  { s with records := s.records.map (fun r =>
      if r.id = record_id then
        { r with validation_status := status, validation_target := target,
                 validation_error := error }
      else r) }

/-- `VectorDB.store_embedding`: `INSERT OR REPLACE` keyed on `id`. -/
def store_embedding (s : VectorState) (record_id : String)
    (embedding : List Rat) : VectorState :=
  { s with embeddings := s.embeddings.filter (fun p => p.1 ≠ record_id) ++ [(record_id, embedding)] }

/-- Squared Euclidean distance; models the L2 distance of the sqlite-vec
MATCH up to the monotone square root, which preserves the ordering that
`search_similar` sorts by. -/
def dist2 (u v : List Rat) : Rat :=
  (List.zipWith (fun a b => (a - b) * (a - b)) u v).sum

/-- `VectorDB.search_similar`: join embeddings with their records, order
by distance ascending, limit to `top_k`. -/
def search_similar (s : VectorState) (query_embedding : List Rat) (top_k : Nat) :
    List (DotNetRecord × Rat) :=
  let joined := s.embeddings.filterMap
    (fun p => (get_by_id s p.1).map (fun r => (r, dist2 p.2 query_embedding)))
  (joined.mergeSort (fun a b => decide (a.2 ≤ b.2))).take top_k

/-! ## memory/embeddings.py

The numeric type of the Python floats is abstracted by `NumOps`, a bundle
of the arithmetic operations `embed_text` uses; the external llama model
is a parameter returning either one vector or per-token vectors. -/

/-- Arithmetic used by the embedding post-processing. -/
structure NumOps (α : Type) where
  zero : α
  add : α → α → α
  mul : α → α → α
  div : α → α → α
  sqrt : α → α
  isZero : α → Bool
  ofNat : Nat → α

/-- Raw output of `model.create_embedding`: a single vector or a list of
per-token vectors. -/
inductive EmbedRaw (α : Type)
  | single (v : List α)
  | perToken (vs : List (List α))

/-- `_mean_pool` on per-token embeddings: sum componentwise over the first
`dim` components, then divide by the token count. -/
def mean_pool (ops : NumOps α) (token_embeddings : List (List α)) : List α :=
  match token_embeddings with
  | [] => []
  | t0 :: _ =>
    let dim := t0.length
    let pooled := token_embeddings.foldl
      (fun acc tv => (List.range dim).map
        (fun i => ops.add (acc.getD i ops.zero) (tv.getD i ops.zero)))
      (List.replicate dim ops.zero)
    pooled.map (fun v => ops.div v (ops.ofNat token_embeddings.length))

/-- `_normalize_l2`: divide by the magnitude unless it is zero. -/
def normalize_l2 (ops : NumOps α) (vec : List α) : List α :=
  let magnitude := ops.sqrt ((vec.map (fun v => ops.mul v v)).foldl ops.add ops.zero)
  if ops.isZero magnitude then vec
  else vec.map (fun v => ops.div v magnitude)

/-- `_truncate_to_dim`: truncate to, or zero-pad up to, the target
dimension. -/
def truncate_to_dim (ops : NumOps α) (vec : List α) (target_dim : Nat) : List α :=
  if vec.length ≥ target_dim then vec.take target_dim
  else vec ++ List.replicate (target_dim - vec.length) ops.zero

/-- `embed_text`: truncate the input to its first 1500 characters, run the
model, mean-pool a per-token result, truncate or pad to the configured
dimension, and L2-normalize. -/
def embed_text (ops : NumOps α) (model : String → EmbedRaw α)
    (embedding_dim : Nat) (text : String) : List α :=
  let truncated := text.take 1500
  let pooled := match model truncated with
    | .single v => v
    | .perToken vs => mean_pool ops vs
  normalize_l2 ops (truncate_to_dim ops pooled embedding_dim)

/-! ## memory/graph_rag.py -/

/-- A single retrieval result (graph_rag.py `RAGResult`). -/
structure RAGResult where
  record : DotNetRecord
  score : Rat
  source : String
  related_edges : List GraphEdge := []
deriving DecidableEq, Repr

/-- The full retrieval context (graph_rag.py `RAGContext`). -/
structure RAGContext where
  results : List RAGResult := []
  graph_nodes : List GraphNode := []
  graph_edges : List GraphEdge := []
deriving DecidableEq, Repr

/-- One result block of `RAGContext.format_for_prompt` (the f-string
assembled for result index `i`). -/
def renderSection (i : Nat) (result : RAGResult) : String :=
  let r := result.record
  let s1 := "### [" ++ toString (i + 1) ++ "] " ++ r.feature_name ++ " (C# "
    ++ r.csharp_version.value ++ ", " ++ r.dotnet_version.value ++ ")\n"
    ++ "Category: " ++ r.category.value ++ "\n" ++ r.description ++ "\n"
  let code := r.code_snippet
  let s2 := if code ≠ "" ∧ code ≠ "// No code extracted" then
      let code2 := if code.length > 500 then code.take 500 ++ "\n// ... (truncated)"
                   else code
      s1 ++ "```csharp\n" ++ code2 ++ "\n```\n"
    else s1
  let s3 := if r.legacy_equivalent ≠ "" ∧ r.legacy_equivalent ≠ "N/A" then
      s2 ++ "Previously: " ++ r.legacy_equivalent ++ "\n"
    else s2
  let s4 := if result.related_edges ≠ [] then
      let rels := (result.related_edges.take 3).map
        (fun e => "  - " ++ e.relation ++ ": " ++ e.target_id)
      s3 ++ "Relationships:\n" ++ String.intercalate "\n" rels ++ "\n"
    else s3
  s4 ++ "\n"

/-- The block loop of `format_for_prompt`: stop (break) at the first block
that would push the running character count past the budget; otherwise
append the whole block and continue. -/
def formatBlocks (max_chars : Nat) : List RAGResult → Nat → Nat → List String
  | [], _, _ => []
  | result :: rest, i, char_count =>
    let sec := renderSection i result
    if char_count + sec.length > max_chars then []
    else sec :: formatBlocks max_chars rest (i + 1) (char_count + sec.length)

/-- The trailing related-versions line of `format_for_prompt` (empty when
no csharp_version node was traversed). -/
def versionSuffix (graph_nodes : List GraphNode) : String :=
  let version_nodes := graph_nodes.filter (fun n => n.node_type = "csharp_version")
  if version_nodes.isEmpty then ""
  else "Related versions: "
    ++ String.intercalate ", " ((version_nodes.take 5).map (fun n => n.name)) ++ "\n"

/-- `RAGContext.format_for_prompt` (Python default budget 3000). -/
def format_for_prompt (ctx : RAGContext) (max_chars : Nat) : String :=
  if ctx.results.isEmpty then ""
  else "## Retrieved Context\n" ++ String.join (formatBlocks max_chars ctx.results 0 0)
    ++ versionSuffix ctx.graph_nodes

/-- The key of the final sort in `retrieve`:
`(0 if source == "vector" else 1, score)`, compared lexicographically. -/
def ragLE (a b : RAGResult) : Bool :=
  let ka : Nat := if a.source = "vector" then 0 else 1
  let kb : Nat := if b.source = "vector" then 0 else 1
  decide (ka < kb) || (decide (ka = kb) && decide (a.score ≤ b.score))

/-- The vector-origin `RAGResult`s built from the similarity search hits. -/
def vectorRagResults (vres : List (DotNetRecord × Rat)) : List RAGResult :=
  vres.map (fun p => { record := p.1, score := p.2, source := "vector", related_edges := [] })

/-- The seed node ids `feature:{record.id}` of the vector hits. -/
def feature_ids_of (vres : List (DotNetRecord × Rat)) : List String :=
  vres.map (fun p => "feature:" ++ p.1.id)

/-- Traversal edges touching a node id (either endpoint). -/
def edgesTouching (edges : List GraphEdge) (nid : String) : List GraphEdge :=
  edges.filter (fun e => e.source_id = nid || e.target_id = nid)

/-- Step 4 of `retrieve` applied to the vector results: attach the
traversal edges touching each feature node. -/
def annotatedVectorResults (vres : List (DotNetRecord × Rat))
    (traversal : TraversalResult) : List RAGResult :=
  (vectorRagResults vres).map (fun res =>
    { res with related_edges :=
        edgesTouching traversal.edges ("feature:" ++ res.record.id) })

/-- One step of the graph-origin accumulation of `retrieve`: a feature
node whose record id is unseen and resolves in the record store appends a
graph-origin result with the sentinel score 999. -/
def graphAccStep (vdb : VectorState) (traversal : TraversalResult)
    (st : List RAGResult × List String) (node : GraphNode) :
    List RAGResult × List String :=
  if node.node_type = "feature" && "feature:".isPrefixOf node.id then
    let record_id := node.id.drop 8
    if st.2.contains record_id then st
    else
      match get_by_id vdb record_id with
      | some record =>
        (st.1 ++ [{ record := record, score := 999, source := "graph",
                    related_edges := edgesTouching traversal.edges node.id }],
         st.2 ++ [record_id])
      | none => st
  else st

/-- Step 4 (continued) of `retrieve`: walk the traversal nodes in
discovery order, and for every feature node whose record id is unseen and
resolves in the record store, append a graph-origin result with the
sentinel score 999. -/
def graphOriginResults (vdb : VectorState) (traversal : TraversalResult)
    (seen0 : List String) : List RAGResult :=
  (traversal.nodes.foldl (graphAccStep vdb traversal) ([], seen0)).1

/-- `GraphRAGRetriever.retrieve`.  The external embedding capability is a
parameter; `none` models the capability raising an exception, which the
source catches and turns into an empty context.  All store accesses the
source makes here are SELECTs, so the store states are inputs only. -/
def retrieve (ecap : String → Option (List Rat)) (vdb : VectorState) (gdb : GraphState)
    (query : String) (top_k graph_hops graph_neighbors : Nat) : RAGContext :=
  match ecap query with
  | none => {}
  | some query_vec =>
    let vres := search_similar vdb query_vec top_k
    if vres.isEmpty then {}
    else
      let traversal := expand_neighbors gdb (feature_ids_of vres) graph_hops graph_neighbors
      let rag_results := annotatedVectorResults vres traversal
        ++ graphOriginResults vdb traversal (vres.map (fun p => p.1.id))
      { results := rag_results.mergeSort ragLE,
        graph_nodes := traversal.nodes, graph_edges := traversal.edges }

/-! ## Helper predicates and lemmas -/

/-- A node with this id exists in the store. -/
def hasNodeId (g : GraphState) (i : String) : Prop :=
  ∃ n ∈ g.nodes, n.id = i

/-- An edge with the same (source, target, relation) triple as `e` exists. -/
def tripleIn (g : GraphState) (e : GraphEdge) : Prop :=
  ∃ x ∈ g.edges, sameTriple x e = true

theorem add_edge_nodes (e : GraphEdge) (g : GraphState) :
    (add_edge e g).nodes = g.nodes := by
  unfold add_edge; split <;> rfl

theorem foldl_add_edge_nodes (es : List GraphEdge) (g : GraphState) :
    (es.foldl (fun s e => add_edge e s) g).nodes = g.nodes := by
  induction es generalizing g with
  | nil => rfl
  | cons e es ih => simp [ih, add_edge_nodes]

theorem hasNodeId_insertIgnore_self (g : GraphState) (n : GraphNode) :
    hasNodeId (insertIgnoreNode g n) n.id := by
  unfold insertIgnoreNode
  split
  · next h =>
    simp only [List.any_eq_true, decide_eq_true_eq] at h
    exact h
  · exact ⟨n, by simp, rfl⟩

theorem hasNodeId_insertIgnore_mono (g : GraphState) (n : GraphNode) (i : String)
    (h : hasNodeId g i) : hasNodeId (insertIgnoreNode g n) i := by
  unfold insertIgnoreNode
  split
  · exact h
  · obtain ⟨m, hm, hmi⟩ := h
    exact ⟨m, by simp [hm], hmi⟩

theorem hasNodeId_batch_mono (ns : List GraphNode) (g : GraphState) (i : String)
    (h : hasNodeId g i) : hasNodeId (ns.foldl insertIgnoreNode g) i := by
  induction ns generalizing g with
  | nil => exact h
  | cons m ms ih =>
    simp only [List.foldl_cons]
    exact ih _ (hasNodeId_insertIgnore_mono g m i h)

theorem hasNodeId_batch (ns : List GraphNode) (g : GraphState) :
    ∀ n ∈ ns, hasNodeId (ns.foldl insertIgnoreNode g) n.id := by
  induction ns generalizing g with
  | nil => intro n h; cases h
  | cons m ms ih =>
    intro n hn
    rcases List.mem_cons.mp hn with rfl | hn
    · simp only [List.foldl_cons]
      exact hasNodeId_batch_mono ms _ n.id (hasNodeId_insertIgnore_self g n)
    · exact ih (insertIgnoreNode g m) n hn

theorem insertIgnore_of_hasNodeId (g : GraphState) (n : GraphNode)
    (h : hasNodeId g n.id) : insertIgnoreNode g n = g := by
  unfold insertIgnoreNode
  rw [if_pos]
  simp only [List.any_eq_true, decide_eq_true_eq]
  exact h

theorem batch_of_all_hasNodeId (ns : List GraphNode) (g : GraphState)
    (h : ∀ n ∈ ns, hasNodeId g n.id) : ns.foldl insertIgnoreNode g = g := by
  induction ns with
  | nil => rfl
  | cons m ms ih =>
    have hm : insertIgnoreNode g m = g := insertIgnore_of_hasNodeId g m (h m (by simp))
    simp only [List.foldl_cons, hm]
    exact ih (fun n hn => h n (by simp [hn]))

theorem tripleIn_add_edge_self (e : GraphEdge) (g : GraphState) :
    tripleIn (add_edge e g) e := by
  unfold add_edge
  split
  · next h =>
    simp only [List.any_eq_true] at h
    exact h
  · exact ⟨{ e with eid := some g.next_eid }, by simp, by simp [sameTriple]⟩

theorem tripleIn_add_edge_mono (e f : GraphEdge) (g : GraphState)
    (h : tripleIn g e) : tripleIn (add_edge f g) e := by
  unfold add_edge
  split
  · exact h
  · obtain ⟨x, hx, hxe⟩ := h
    exact ⟨x, by simp [hx], hxe⟩

theorem add_edge_of_tripleIn (e : GraphEdge) (g : GraphState)
    (h : tripleIn g e) : add_edge e g = g := by
  unfold add_edge
  rw [if_pos]
  simp only [List.any_eq_true]
  exact h

theorem tripleIn_edge_fold_mono (es : List GraphEdge) (g : GraphState) (e : GraphEdge)
    (h : tripleIn g e) : tripleIn (es.foldl (fun s x => add_edge x s) g) e := by
  induction es generalizing g with
  | nil => exact h
  | cons f fs ih =>
    simp only [List.foldl_cons]
    exact ih _ (tripleIn_add_edge_mono e f g h)

theorem tripleIn_edge_fold (es : List GraphEdge) (g : GraphState) :
    ∀ e ∈ es, tripleIn (es.foldl (fun s x => add_edge x s) g) e := by
  induction es generalizing g with
  | nil => intro e h; cases h
  | cons f fs ih =>
    intro e he
    rcases List.mem_cons.mp he with rfl | he
    · simp only [List.foldl_cons]
      exact tripleIn_edge_fold_mono fs _ e (tripleIn_add_edge_self e g)
    · exact ih (add_edge f g) e he

theorem edge_fold_of_all_tripleIn (es : List GraphEdge) (g : GraphState)
    (h : ∀ e ∈ es, tripleIn g e) : es.foldl (fun s x => add_edge x s) g = g := by
  induction es with
  | nil => rfl
  | cons f fs ih =>
    have hf : add_edge f g = g := add_edge_of_tripleIn f g (h f (by simp))
    simp only [List.foldl_cons, hf]
    exact ih (fun e he => h e (by simp [he]))

/-- `hasNodeId` only looks at the node table, which edge folds preserve. -/
theorem hasNodeId_edge_fold (es : List GraphEdge) (g : GraphState) (i : String)
    (h : hasNodeId g i) : hasNodeId (es.foldl (fun s x => add_edge x s) g) i := by
  unfold hasNodeId at *
  rw [foldl_add_edge_nodes]
  exact h

/-! ## C2: edge triple uniqueness -/

/-- Edge-table write operations exposed by the graph store. -/
inductive EdgeWriteOp
  | single (e : GraphEdge)
  | batch (es : List GraphEdge)

/-- Apply one write operation (`add_edge` or `add_edges_batch`). -/
def applyEdgeOp (op : EdgeWriteOp) (g : GraphState) : GraphState :=
  match op with
  | .single e => add_edge e g
  | .batch es => (add_edges_batch es g).2

/-- Apply a sequence of edge-write operations. -/
def applyEdgeOps (ops : List EdgeWriteOp) (g : GraphState) : GraphState :=
  ops.foldl (fun s op => applyEdgeOp op s) g

/-- No two stored edges share the (source, target, relation) triple. -/
def EdgeDedup (g : GraphState) : Prop :=
  g.edges.Pairwise (fun a b => sameTriple a b = false)

theorem add_edge_preserves_dedup (e : GraphEdge) (g : GraphState)
    (h : EdgeDedup g) : EdgeDedup (add_edge e g) := by
  unfold add_edge
  split
  · exact h
  · next hno =>
    unfold EdgeDedup at *
    simp only [List.pairwise_append]
    refine ⟨h, by simp, ?_⟩
    intro a ha b hb
    simp only [List.mem_singleton] at hb
    subst hb
    have hne : ¬ sameTriple a e = true := by
      intro hs
      exact hno (by simp only [List.any_eq_true]; exact ⟨a, ha, hs⟩)
    have he2 : sameTriple a { e with eid := some g.next_eid } = sameTriple a e := by
      simp [sameTriple]
    rw [he2]
    exact Bool.eq_false_iff.mpr hne

theorem edge_fold_preserves_dedup (es : List GraphEdge) (g : GraphState)
    (h : EdgeDedup g) : EdgeDedup (es.foldl (fun s e => add_edge e s) g) := by
  induction es generalizing g with
  | nil => exact h
  | cons f fs ih =>
    simp only [List.foldl_cons]
    exact ih _ (add_edge_preserves_dedup f g h)

theorem applyEdgeOps_preserves_dedup (ops : List EdgeWriteOp) (g : GraphState)
    (h : EdgeDedup g) : EdgeDedup (applyEdgeOps ops g) := by
  induction ops generalizing g with
  | nil => exact h
  | cons op rest ih =>
    simp only [applyEdgeOps, List.foldl_cons]
    apply ih
    cases op with
    | single e => exact add_edge_preserves_dedup e g h
    | batch es => exact edge_fold_preserves_dedup es g h

/-- C2: starting from the empty store, every state reachable by `add_edge`
and `add_edges_batch` operations keeps the (source, target, relation)
triple unique — no two persisted edges ever share it — and inserting an
edge whose triple already exists is a silent no-op on the store. -/
theorem edge_triple_unique_invariant :
    (∀ ops : List EdgeWriteOp, EdgeDedup (applyEdgeOps ops {})) ∧
    (∀ (g : GraphState) (e : GraphEdge), tripleIn g e → add_edge e g = g) := by
  constructor
  · intro ops
    exact applyEdgeOps_preserves_dedup ops {} (by constructor)
  · intro g e h
    exact add_edge_of_tripleIn e g h

/-- Concrete edge used by witnesses. -/
def wEdge : GraphEdge :=
  { eid := none, source_id := "feature:x", target_id := "csharp:9.0",
    relation := "INTRODUCED_IN" }

/-- Witness for C2: after inserting `wEdge` once, its triple is present
and re-inserting it leaves the store unchanged. -/
theorem edge_triple_unique_invariant_witness :
    tripleIn (applyEdgeOps [.single wEdge] {}) wEdge ∧
    add_edge wEdge (applyEdgeOps [.single wEdge] {}) = applyEdgeOps [.single wEdge] {} := by
  have ht : tripleIn (applyEdgeOps [.single wEdge] {}) wEdge := by
    unfold tripleIn
    decide
  exact ⟨ht, edge_triple_unique_invariant.2 (applyEdgeOps [.single wEdge] {}) wEdge ht⟩

/-! ## C3: seed_graph idempotence -/

/-- C3: running `seed_graph` a second time is the identity on the store
state, so both the total node count and the total edge count are those of
a single run, and the second run creates no duplicate node or edge. -/
theorem seed_graph_idempotent (g : GraphState) :
    (seed_graph (seed_graph g).2).2 = (seed_graph g).2 := by
  simp only [seed_graph, add_nodes_batch]
  set g1 := seedNodes.foldl insertIgnoreNode g with hg1
  set gS := seedEdges.foldl (fun s e => add_edge e s) g1 with hgS
  have hnodes : ∀ n ∈ seedNodes, hasNodeId gS n.id := fun n hn =>
    hasNodeId_edge_fold seedEdges g1 n.id (hasNodeId_batch seedNodes g n hn)
  have htriples : ∀ e ∈ seedEdges, tripleIn gS e := fun e he =>
    tripleIn_edge_fold seedEdges g1 e he
  rw [batch_of_all_hasNodeId seedNodes gS hnodes]
  exact edge_fold_of_all_tripleIn seedEdges gS htriples

/-! ## C1 / C9: expand_neighbors -/

/-- Traversal invariant: the collected node ids are pairwise distinct and
every collected node id has been marked visited. -/
def ExpandInv (st : ExpandState) : Prop :=
  (st.nodes.map (fun n => n.id)).Nodup ∧ ∀ n ∈ st.nodes, n.id ∈ st.visited

theorem visitNeighbor_inv (acc : ExpandState) (ne : GraphNode × GraphEdge)
    (h : ExpandInv acc) : ExpandInv (visitNeighbor acc ne) := by
  obtain ⟨hnd, hvis⟩ := h
  simp only [visitNeighbor]
  split
  · exact ⟨hnd, hvis⟩
  · next hc =>
    have hnotmem : ne.1.id ∉ acc.visited := by
      simpa using hc
    constructor
    · rw [List.map_append]
      refine List.Nodup.append hnd (by simp) ?_
      intro x hx hx2
      simp only [List.map_cons, List.map_nil, List.mem_singleton] at hx2
      subst hx2
      obtain ⟨n, hn, hnid⟩ := List.mem_map.mp hx
      exact hnotmem (hnid ▸ hvis n hn)
    · intro n hn
      rcases List.mem_append.mp hn with hn | hn
      · exact List.mem_append.mpr (Or.inl (hvis n hn))
      · simp only [List.mem_singleton] at hn
        subst hn
        exact List.mem_append.mpr (Or.inr (by simp))

theorem visitNeighbor_fold_inv (nbrs : List (GraphNode × GraphEdge))
    (acc : ExpandState) (h : ExpandInv acc) :
    ExpandInv (nbrs.foldl visitNeighbor acc) := by
  induction nbrs generalizing acc with
  | nil => exact h
  | cons ne rest ih =>
    simp only [List.foldl_cons]
    exact ih _ (visitNeighbor_inv acc ne h)

theorem visitFrontierNode_inv (g : GraphState) (k : Nat) (acc : ExpandState)
    (nid : String) (h : ExpandInv acc) :
    ExpandInv (visitFrontierNode g k acc nid) :=
  visitNeighbor_fold_inv _ acc h

theorem hopStep_inv (g : GraphState) (k : Nat) (st : ExpandState)
    (h : ExpandInv st) : ExpandInv (hopStep g k st) := by
  unfold hopStep
  have hinit : ExpandInv { st with frontier := [] } := h
  generalize { st with frontier := ([] : List String) } = st0 at hinit ⊢
  induction st.frontier generalizing st0 with
  | nil => exact hinit
  | cons nid rest ih =>
    simp only [List.foldl_cons]
    exact ih _ (visitFrontierNode_inv g k st0 nid hinit)

theorem expandLoop_inv (g : GraphState) (k : Nat) (fuel : Nat) (st : ExpandState)
    (h : ExpandInv st) : ExpandInv (expandLoop g k fuel st) := by
  induction fuel generalizing st with
  | zero => exact h
  | succ n ih =>
    simp only [expandLoop]
    split
    · exact hopStep_inv g k st h
    · exact ih _ (hopStep_inv g k st h)

theorem seed_fold_inv (g : GraphState) :
    ∀ (ids : List String) (acc : List String × List GraphNode),
      ids.Nodup →
      (acc.2.map (fun n => n.id)).Nodup →
      (∀ n ∈ acc.2, n.id ∈ acc.1) →
      (∀ x ∈ acc.1, x ∉ ids) →
      ((ids.foldl (seedStep g) acc).2.map (fun n => n.id)).Nodup ∧
      (∀ n ∈ (ids.foldl (seedStep g) acc).2, n.id ∈ (ids.foldl (seedStep g) acc).1) := by
  intro ids
  induction ids with
  | nil => intro acc _ h2 h3 _; exact ⟨h2, h3⟩
  | cons nid rest ih =>
    intro acc hnd h2 h3 h4
    simp only [List.foldl_cons]
    have hndrest : rest.Nodup := (List.nodup_cons.mp hnd).2
    have hnidrest : nid ∉ rest := (List.nodup_cons.mp hnd).1
    cases hfind : get_node g nid with
    | none =>
      refine ih _ hndrest (by simpa [seedStep, hfind] using h2)
        (by simpa [seedStep, hfind] using h3) ?_
      intro x hx
      simp only [seedStep, hfind] at hx
      exact fun hr => h4 x hx (by simp [hr])
    | some n =>
      have hid : n.id = nid := by
        have := List.find?_some hfind
        simpa using this
      have hnidacc : nid ∉ acc.1 := fun hmem => h4 nid hmem (by simp)
      refine ih _ hndrest ?_ ?_ ?_
      · simp only [seedStep, hfind, List.map_append]
        refine List.Nodup.append h2 (by simp) ?_
        intro x hx hx2
        simp only [List.map_cons, List.map_nil, List.mem_singleton] at hx2
        subst hx2
        obtain ⟨m, hm, hmid⟩ := List.mem_map.mp hx
        exact hnidacc (hid ▸ hmid ▸ h3 m hm)
      · simp only [seedStep, hfind]
        intro m hm
        rcases List.mem_append.mp hm with hm | hm
        · have := h3 m hm
          unfold setAdd
          split
          · exact this
          · exact List.mem_append.mpr (Or.inl this)
        · simp only [List.mem_singleton] at hm
          subst hm
          rw [hid]
          unfold setAdd
          split
          · next hcon => simpa using hcon
          · simp
      · simp only [seedStep, hfind]
        intro x hx
        unfold setAdd at hx
        split at hx
        · exact fun hr => h4 x hx (by simp [hr])
        · rcases List.mem_append.mp hx with hx | hx
          · exact fun hr => h4 x hx (by simp [hr])
          · simp only [List.mem_singleton] at hx
            subst hx
            exact hnidrest

/-- Counterexample graph: a single feature node with id `a`. -/
def cexGraph : GraphState :=
  { nodes := [{ id := "a", node_type := "feature", name := "A" }],
    edges := [], next_eid := 1 }

/-- Counterexample to C1 as stated: the Python seed loop has no membership
check, so the call with the duplicated seed list `["a", "a"]` over a graph
containing node `a` returns a traversal whose node list mentions id `a`
twice. -/
theorem expand_neighbors_dup_seed_cex :
    ¬ (((expand_neighbors cexGraph ["a", "a"] 0 5).nodes.map (fun n => n.id)).Nodup) := by
  have h : (expand_neighbors cexGraph ["a", "a"] 0 5).nodes.map (fun n => n.id)
      = ["a", "a"] := by decide
  rw [h]
  simp

/-- Upper bound on nodes added by one neighbor visit. -/
theorem visitNeighbor_nodes_le (acc : ExpandState) (ne : GraphNode × GraphEdge) :
    (visitNeighbor acc ne).nodes.length ≤ acc.nodes.length + 1 := by
  simp only [visitNeighbor]
  split
  · simp
  · simp

theorem visitNeighbor_fold_nodes_le (nbrs : List (GraphNode × GraphEdge))
    (acc : ExpandState) :
    (nbrs.foldl visitNeighbor acc).nodes.length ≤ acc.nodes.length + nbrs.length := by
  induction nbrs generalizing acc with
  | nil => simp
  | cons ne rest ih =>
    simp only [List.foldl_cons, List.length_cons]
    calc (rest.foldl visitNeighbor (visitNeighbor acc ne)).nodes.length
        ≤ (visitNeighbor acc ne).nodes.length + rest.length := ih _
      _ ≤ acc.nodes.length + 1 + rest.length := by
          have := visitNeighbor_nodes_le acc ne
          omega
      _ = acc.nodes.length + (rest.length + 1) := by omega

theorem visitFrontierNode_nodes_le (g : GraphState) (k : Nat) (acc : ExpandState)
    (nid : String) :
    (visitFrontierNode g k acc nid).nodes.length ≤ acc.nodes.length + k := by
  unfold visitFrontierNode
  calc ((get_neighbors g nid k).foldl visitNeighbor acc).nodes.length
      ≤ acc.nodes.length + (get_neighbors g nid k).length :=
        visitNeighbor_fold_nodes_le _ acc
    _ ≤ acc.nodes.length + k := by
        have : (get_neighbors g nid k).length ≤ k := by
          unfold get_neighbors
          exact List.length_take_le k _
        omega

theorem frontier_fold_nodes_le (g : GraphState) (k : Nat) :
    ∀ (fr : List String) (acc : ExpandState),
      (fr.foldl (visitFrontierNode g k) acc).nodes.length
        ≤ acc.nodes.length + fr.length * k := by
  intro fr
  induction fr with
  | nil => intro acc; simp
  | cons nid rest ih =>
    intro acc
    simp only [List.foldl_cons, List.length_cons]
    calc (rest.foldl (visitFrontierNode g k) (visitFrontierNode g k acc nid)).nodes.length
        ≤ (visitFrontierNode g k acc nid).nodes.length + rest.length * k := ih _
      _ ≤ acc.nodes.length + k + rest.length * k := by
          have := visitFrontierNode_nodes_le g k acc nid
          omega
      _ ≤ acc.nodes.length + (rest.length + 1) * k := by
          have : (rest.length + 1) * k = rest.length * k + k := by ring
          omega

/-- C1 (amended): for a duplicate-free seed id list the traversal result
mentions each node id at most once, and one hop of the expansion adds at
most `|frontier| * max_neighbors_per_hop` new nodes to the result. -/
theorem expand_neighbors_dedup_and_hop_bound :
    (∀ (g : GraphState) (node_ids : List String) (max_hops max_neighbors_per_hop : Nat),
      node_ids.Nodup →
      ((expand_neighbors g node_ids max_hops max_neighbors_per_hop).nodes.map
        (fun n => n.id)).Nodup) ∧
    (∀ (g : GraphState) (max_neighbors_per_hop : Nat) (st : ExpandState),
      (hopStep g max_neighbors_per_hop st).nodes.length
        ≤ st.nodes.length + st.frontier.length * max_neighbors_per_hop) := by
  constructor
  · intro g node_ids max_hops k hnd
    have hseed := seed_fold_inv g node_ids ([], []) hnd (by simp) (by simp) (by simp)
    have hst0 : ExpandInv
        { visited := (node_ids.foldl (seedStep g) ([], [])).1,
          nodes := (node_ids.foldl (seedStep g) ([], [])).2,
          edges := [], frontier := setOfList node_ids } := ⟨hseed.1, hseed.2⟩
    exact (expandLoop_inv g k max_hops _ hst0).1
  · intro g k st
    unfold hopStep
    have := frontier_fold_nodes_le g k st.frontier { st with frontier := [] }
    simpa using this

/-- Witness for C1: a duplicate-free two-seed call on the counterexample
graph, and a concrete hop step, both within the proved bounds. -/
theorem expand_neighbors_dedup_and_hop_bound_witness :
    (["a", "b"] : List String).Nodup ∧
    ((expand_neighbors cexGraph ["a", "b"] 1 5).nodes.map (fun n => n.id)).Nodup := by
  refine ⟨by simp, ?_⟩
  exact expand_neighbors_dedup_and_hop_bound.1 cexGraph ["a", "b"] 1 5 (by simp)

/-- Nodes collected by the seed loop: exactly the resolvable seed ids, in
seed order, once per occurrence. -/
theorem seed_fold_nodes (g : GraphState) :
    ∀ (ids : List String) (acc : List String × List GraphNode),
      (ids.foldl (seedStep g) acc).2 = acc.2 ++ ids.filterMap (get_node g) := by
  intro ids
  induction ids with
  | nil => intro acc; simp
  | cons nid rest ih =>
    intro acc
    simp only [List.foldl_cons, List.filterMap_cons]
    cases hfind : get_node g nid with
    | none => simp only [seedStep, hfind]; exact ih acc
    | some n =>
      simp only [seedStep, hfind]
      rw [ih]
      simp

/-- C9 (amended): with `max_hops = 0` the traversal returns exactly the
seed nodes that resolve to existing nodes, in seed order and once per
occurrence in the seed list (duplicate seed ids yield duplicate entries),
and an empty edge list. -/
theorem expand_neighbors_zero_hops (g : GraphState) (node_ids : List String)
    (max_neighbors_per_hop : Nat) :
    expand_neighbors g node_ids 0 max_neighbors_per_hop
      = { nodes := node_ids.filterMap (get_node g), edges := [] } := by
  unfold expand_neighbors expandLoop
  simp only []
  rw [seed_fold_nodes]
  simp

/-- Counterexample to C9 as stated: with the duplicated seed list
`["a", "a"]` and `max_hops = 0` the returned node list is `[a, a]`, not
deduplicated. -/
theorem expand_neighbors_zero_hops_dup_cex :
    (expand_neighbors cexGraph ["a", "a"] 0 5).nodes.map (fun n => n.id) = ["a", "a"] ∧
    ¬ ((expand_neighbors cexGraph ["a", "a"] 0 5).nodes.map (fun n => n.id)).Nodup := by
  have h : (expand_neighbors cexGraph ["a", "a"] 0 5).nodes.map (fun n => n.id)
      = ["a", "a"] := by decide
  rw [h]
  simp

/-! ## C4: format_for_prompt budget -/

/-- All rendered result blocks starting at index `i`. -/
def renderedSections : List RAGResult → Nat → List String
  | [], _ => []
  | r :: rest, i => renderSection i r :: renderedSections rest (i + 1)

theorem foldl_string_append_length (l : List String) (s : String) :
    (l.foldl (fun r t => r ++ t) s).length = s.length + (l.map String.length).sum := by
  induction l generalizing s with
  | nil => simp
  | cons t ts ih =>
    simp only [List.foldl_cons, List.map_cons, List.sum_cons, ih, String.length_append]
    omega

theorem string_join_length (l : List String) :
    (String.join l).length = (l.map String.length).sum := by
  show (l.foldl (fun r t => r ++ t) "").length = _
  simp [foldl_string_append_length]

theorem formatBlocks_sum_le (max_chars : Nat) :
    ∀ (rs : List RAGResult) (i c : Nat),
      c + ((formatBlocks max_chars rs i c).map String.length).sum ≤ max max_chars c := by
  intro rs
  induction rs with
  | nil =>
    intro i c
    simp only [formatBlocks, List.map_nil, List.sum_nil, Nat.add_zero]
    exact Nat.le_max_right _ _
  | cons r rest ih =>
    intro i c
    simp only [formatBlocks]
    split
    · simp only [List.map_nil, List.sum_nil, Nat.add_zero]
      exact Nat.le_max_right _ _
    · next hle =>
      have hcl : c + (renderSection i r).length ≤ max_chars := by omega
      simp only [List.map_cons, List.sum_cons]
      have h2 := ih (i + 1) (c + (renderSection i r).length)
      rw [Nat.max_eq_left hcl] at h2
      have hmax : c ≤ max max_chars c := Nat.le_max_right _ _
      have : max max_chars c ≥ max_chars := Nat.le_max_left _ _
      omega

theorem formatBlocks_sum_le_budget (max_chars : Nat) (rs : List RAGResult) :
    ((formatBlocks max_chars rs 0 0).map String.length).sum ≤ max_chars := by
  have h := formatBlocks_sum_le max_chars rs 0 0
  simpa using h

theorem formatBlocks_take (max_chars : Nat) :
    ∀ (rs : List RAGResult) (i c : Nat),
      ∃ k, formatBlocks max_chars rs i c = (renderedSections rs i).take k := by
  intro rs
  induction rs with
  | nil => intro i c; exact ⟨0, by simp [formatBlocks, renderedSections]⟩
  | cons r rest ih =>
    intro i c
    simp only [formatBlocks, renderedSections]
    split
    · exact ⟨0, by simp⟩
    · obtain ⟨k, hk⟩ := ih (i + 1) (c + (renderSection i r).length)
      exact ⟨k + 1, by simp [List.take_succ_cons, hk]⟩

/-- C4: the budget check of `format_for_prompt` runs before every append,
so the emitted result blocks form a prefix of the rendered block list
(no partial block is ever emitted), their total length never exceeds the
budget, and the returned string exceeds the budget only by the fixed
header and the related-versions summary line, which the check does not
count. -/
theorem format_for_prompt_budget (ctx : RAGContext) (max_chars : Nat) :
    (∃ k, formatBlocks max_chars ctx.results 0 0 = (renderedSections ctx.results 0).take k) ∧
    ((formatBlocks max_chars ctx.results 0 0).map String.length).sum ≤ max_chars ∧
    (format_for_prompt ctx max_chars).length
      ≤ ("## Retrieved Context\n").length + max_chars + (versionSuffix ctx.graph_nodes).length := by
  refine ⟨formatBlocks_take max_chars ctx.results 0 0,
    formatBlocks_sum_le_budget max_chars ctx.results, ?_⟩
  unfold format_for_prompt
  split
  · simp
  · simp only [String.length_append, string_join_length]
    have h := formatBlocks_sum_le_budget max_chars ctx.results
    omega

/-! ## C8: update_validation frame -/

/-- Relation between an input record and its image under
`update_validation` for target id `record_id`: every non-validation field
is preserved, and a record with a different id is entirely unchanged. -/
def ValidationFrame (record_id : String) (r r2 : DotNetRecord) : Prop :=
  r2.id = r.id ∧ r2.category = r.category ∧ r2.csharp_version = r.csharp_version ∧
  r2.dotnet_version = r.dotnet_version ∧ r2.feature_name = r.feature_name ∧
  r2.description = r.description ∧ r2.code_snippet = r.code_snippet ∧
  r2.legacy_equivalent = r.legacy_equivalent ∧ r2.nuget_packages = r.nuget_packages ∧
  r2.source_url = r.source_url ∧ r2.tags = r.tags ∧
  (r.id ≠ record_id → r2 = r)

/-- C8: `update_validation` leaves the embedding table untouched and, for
every stored record (position by position), changes at most the three
validation fields; a record whose id differs from the target id is
returned entirely unchanged. -/
theorem update_validation_frame (s : VectorState) (record_id : String)
    (status : ValidationStatus) (target : String) (error : Option String) :
    (update_validation s record_id status target error).embeddings = s.embeddings ∧
    List.Forall₂ (ValidationFrame record_id)
      s.records (update_validation s record_id status target error).records := by
  refine ⟨rfl, ?_⟩
  have main : ∀ (l : List DotNetRecord),
      List.Forall₂ (ValidationFrame record_id)
        l (l.map (fun r =>
          if r.id = record_id then
            { r with validation_status := status, validation_target := target,
                     validation_error := error }
          else r)) := by
    intro l
    induction l with
    | nil => constructor
    | cons r rest ih =>
      simp only [List.map_cons]
      refine List.Forall₂.cons ?_ ih
      by_cases hid : r.id = record_id
      · simp only [if_pos hid]
        exact ⟨rfl, rfl, rfl, rfl, rfl, rfl, rfl, rfl, rfl, rfl, rfl,
          fun hne => absurd hid hne⟩
      · simp only [if_neg hid]
        exact ⟨rfl, rfl, rfl, rfl, rfl, rfl, rfl, rfl, rfl, rfl, rfl, fun _ => rfl⟩
  exact main s.records

/-! ## C6: retrieve degrades to an empty context on embedding failure -/

/-- C6: when the embedding capability raises (modelled by `none`),
`retrieve` catches the failure and returns the empty context — no results,
no graph nodes, no graph edges — propagating nothing to the caller.  The
embedding is a pure function of the two store states, which are inputs
only: the source performs no writes in `retrieve`. -/
theorem retrieve_embed_failure (ecap : String → Option (List Rat))
    (vdb : VectorState) (gdb : GraphState) (query : String)
    (top_k graph_hops graph_neighbors : Nat)
    (he : ecap query = none) :
    retrieve ecap vdb gdb query top_k graph_hops graph_neighbors
      = { results := [], graph_nodes := [], graph_edges := [] } := by
  unfold retrieve
  rw [he]

/-- Witness for C6: a capability that always raises yields the empty
context on concrete stores. -/
theorem retrieve_embed_failure_witness :
    retrieve (fun _ => none) { records := [], embeddings := [] }
        { nodes := [], edges := [], next_eid := 1 } "query" 5 2 5
      = { results := [], graph_nodes := [], graph_edges := [] } :=
  retrieve_embed_failure (fun _ => none) _ _ "query" 5 2 5 rfl

/-! ## C7: add_record_to_graph return count -/

/-- Concrete record used to exhibit the C7 return-count bug. -/
def wRecord : DotNetRecord :=
  { id := "r1", category := .language, csharp_version := .v9_0,
    dotnet_version := .net_5, feature_name := "records", description := "d",
    code_snippet := "", legacy_equivalent := "", nuget_packages := [],
    source_url := "u", validation_status := .untested, validation_target := "",
    validation_error := none, tags := [] }

/-- C7 failing input: the first `add_record_to_graph` call on the empty
store creates 3 edges and returns 3; the second call with the same record
creates 0 edges (all three triples already exist) yet still returns 3,
because `edges_created` increments per attempt, contradicting the
documented "returns edge count created". -/
theorem add_record_to_graph_count_bug :
    (add_record_to_graph wRecord {}).1 = 3 ∧
    (add_record_to_graph wRecord {}).2.edges.length = 3 ∧
    (add_record_to_graph wRecord (add_record_to_graph wRecord {}).2).1 = 3 ∧
    (add_record_to_graph wRecord (add_record_to_graph wRecord {}).2).2.edges.length = 3 := by
  refine ⟨rfl, rfl, rfl, rfl⟩

/-! ## C10: embed_text depends only on the first 1500 characters -/

/-- C10: two runs of `embed_text` with the same deterministic model and
arithmetic agree whenever the inputs agree on their first 1500 characters:
the characters beyond position 1500 never influence the result. -/
theorem embed_text_first_1500 {α : Type} (ops : NumOps α)
    (model : String → EmbedRaw α) (embedding_dim : Nat) (t1 t2 : String)
    (h : t1.take 1500 = t2.take 1500) :
    embed_text ops model embedding_dim t1 = embed_text ops model embedding_dim t2 := by
  unfold embed_text
  rw [h]

/-- Rational-number instantiation of the embedding arithmetic (the square
root is irrelevant to the witness and is taken as the identity). -/
def ratNumOps : NumOps Rat :=
  { zero := 0, add := (· + ·), mul := (· * ·), div := (· / ·),
    sqrt := fun x => x, isZero := fun x => x == 0, ofNat := fun n => (n : Rat) }

/-- A deterministic stand-in embedding model. -/
def wModel : String → EmbedRaw Rat := fun _ => .single [1, 0]

/-- 1501-character text ending in `x`. -/
def wText1 : String := ⟨List.replicate 1500 'a' ++ ['x']⟩

/-- 1501-character text ending in `y`. -/
def wText2 : String := ⟨List.replicate 1500 'a' ++ ['y']⟩

set_option maxRecDepth 10000 in
/-- Witness for C10: two texts that differ only at position 1501 embed
identically. -/
theorem embed_text_first_1500_witness :
    wText1.take 1500 = wText2.take 1500 ∧
    embed_text ratNumOps wModel 2 wText1 = embed_text ratNumOps wModel 2 wText2 := by
  have htake : ∀ (c : Char), (⟨List.replicate 1500 'a' ++ [c]⟩ : String).take 1500
      = ⟨List.replicate 1500 'a'⟩ := by
    intro c
    rw [String.take_eq]
    congr 1
  have h : wText1.take 1500 = wText2.take 1500 := by
    show (⟨List.replicate 1500 'a' ++ ['x']⟩ : String).take 1500
        = (⟨List.replicate 1500 'a' ++ ['y']⟩ : String).take 1500
    rw [htake 'x', htake 'y']
  exact ⟨h, embed_text_first_1500 ratNumOps wModel 2 wText1 wText2 h⟩

/-! ## C5: retrieve result ordering -/

/-- The vector-origin results of one `retrieve` call, in similarity-search
order (ascending distance), annotated with their touching edges. -/
def vectorPhase (vdb : VectorState) (gdb : GraphState) (qvec : List Rat)
    (top_k graph_hops graph_neighbors : Nat) : List RAGResult :=
  annotatedVectorResults (search_similar vdb qvec top_k)
    (expand_neighbors gdb (feature_ids_of (search_similar vdb qvec top_k))
      graph_hops graph_neighbors)

/-- The graph-origin results of one `retrieve` call, in traversal
discovery order. -/
def graphPhase (vdb : VectorState) (gdb : GraphState) (qvec : List Rat)
    (top_k graph_hops graph_neighbors : Nat) : List RAGResult :=
  graphOriginResults vdb
    (expand_neighbors gdb (feature_ids_of (search_similar vdb qvec top_k))
      graph_hops graph_neighbors)
    ((search_similar vdb qvec top_k).map (fun p => p.1.id))

theorem retrieve_eq_of_embed (ecap : String → Option (List Rat))
    (vdb : VectorState) (gdb : GraphState) (query : String)
    (top_k graph_hops graph_neighbors : Nat) (qvec : List Rat)
    (he : ecap query = some qvec) :
    retrieve ecap vdb gdb query top_k graph_hops graph_neighbors =
      if (search_similar vdb qvec top_k).isEmpty then {} else
        { results := (vectorPhase vdb gdb qvec top_k graph_hops graph_neighbors
            ++ graphPhase vdb gdb qvec top_k graph_hops graph_neighbors).mergeSort ragLE,
          graph_nodes := (expand_neighbors gdb
            (feature_ids_of (search_similar vdb qvec top_k)) graph_hops graph_neighbors).nodes,
          graph_edges := (expand_neighbors gdb
            (feature_ids_of (search_similar vdb qvec top_k)) graph_hops graph_neighbors).edges } := by
  unfold retrieve vectorPhase graphPhase
  rw [he]

theorem search_similar_sorted (s : VectorState) (q : List Rat) (top_k : Nat) :
    (search_similar s q top_k).Pairwise (fun a b => a.2 ≤ b.2) := by
  unfold search_similar
  apply List.Pairwise.sublist (List.take_sublist _ _)
  have hs := @List.sorted_mergeSort (DotNetRecord × Rat)
    (fun a b => decide (a.2 ≤ b.2))
    (fun a b c hab hbc => by
      simp only [decide_eq_true_eq] at *
      exact le_trans hab hbc)
    (fun a b => by
      simp only [Bool.or_eq_true, decide_eq_true_eq]
      exact le_total a.2 b.2)
    (s.embeddings.filterMap
      (fun p => (get_by_id s p.1).map (fun r => (r, dist2 p.2 q))))
  exact hs.imp (fun h => by simpa using h)

theorem annotatedVectorResults_source (vres : List (DotNetRecord × Rat))
    (traversal : TraversalResult) :
    ∀ r ∈ annotatedVectorResults vres traversal, r.source = "vector" := by
  intro r hr
  unfold annotatedVectorResults vectorRagResults at hr
  simp only [List.map_map, List.mem_map] at hr
  obtain ⟨p, _, hp⟩ := hr
  rw [← hp]
  rfl

theorem annotatedVectorResults_sorted (vres : List (DotNetRecord × Rat))
    (traversal : TraversalResult)
    (h : vres.Pairwise (fun a b => a.2 ≤ b.2)) :
    (annotatedVectorResults vres traversal).Pairwise (fun a b => a.score ≤ b.score) := by
  unfold annotatedVectorResults vectorRagResults
  simp only [List.map_map]
  rw [List.pairwise_map]
  exact h.imp (fun hab => hab)

/-- Elements appended by the graph-origin fold all carry source `graph`
and the sentinel score 999. -/
theorem graphAccStep_fold_prop (vdb : VectorState) (traversal : TraversalResult) :
    ∀ (nodes : List GraphNode) (st : List RAGResult × List String),
      (∀ r ∈ st.1, r.source = "graph" ∧ r.score = 999) →
      ∀ r ∈ (nodes.foldl (graphAccStep vdb traversal) st).1,
        r.source = "graph" ∧ r.score = 999 := by
  intro nodes
  induction nodes with
  | nil => intro st h; exact h
  | cons node rest ih =>
    intro st h
    simp only [List.foldl_cons]
    apply ih
    simp only [graphAccStep]
    split
    · split
      · exact h
      · cases hfind : get_by_id vdb (node.id.drop 8) with
        | none => simpa [hfind] using h
        | some record =>
          simp only [hfind]
          intro r hr
          rcases List.mem_append.mp hr with hr | hr
          · exact h r hr
          · simp only [List.mem_singleton] at hr
            subst hr
            exact ⟨rfl, rfl⟩
    · exact h

theorem graphOriginResults_props (vdb : VectorState) (traversal : TraversalResult)
    (seen0 : List String) :
    ∀ r ∈ graphOriginResults vdb traversal seen0,
      r.source = "graph" ∧ r.score = 999 := by
  unfold graphOriginResults
  exact graphAccStep_fold_prop vdb traversal traversal.nodes ([], seen0) (by simp)

/-- Build `Pairwise` from a pointwise property of all members. -/
theorem pairwise_of_mem_prop {α : Type} {P : α → Prop} {R : α → α → Prop}
    (l : List α) (hall : ∀ a ∈ l, P a) (h : ∀ a b, P a → P b → R a b) :
    l.Pairwise R := by
  induction l with
  | nil => constructor
  | cons x xs ih =>
    refine List.Pairwise.cons ?_ (ih (fun a ha => hall a (by simp [ha])))
    intro y hy
    exact h x y (hall x (by simp)) (hall y (by simp [hy]))

theorem expand_neighbors_nil_nodes (g : GraphState) (max_hops k : Nat) :
    (expand_neighbors g [] max_hops k).nodes = [] := by
  cases max_hops with
  | zero => rfl
  | succ n => rfl

/-- C5: with a successful query embedding, the result list of `retrieve`
is the vector-origin results first — in ascending distance order, as
delivered by `search_similar` — followed by the graph-origin results in
their traversal discovery order; the final sort is stable and, since
every vector result precedes every graph result under the sort key and
each part is already ordered, it leaves this arrangement intact. -/
theorem retrieve_sort_order (ecap : String → Option (List Rat))
    (vdb : VectorState) (gdb : GraphState) (query : String)
    (top_k graph_hops graph_neighbors : Nat) (qvec : List Rat)
    (he : ecap query = some qvec) :
    (retrieve ecap vdb gdb query top_k graph_hops graph_neighbors).results
      = vectorPhase vdb gdb qvec top_k graph_hops graph_neighbors
        ++ graphPhase vdb gdb qvec top_k graph_hops graph_neighbors ∧
    (∀ r ∈ vectorPhase vdb gdb qvec top_k graph_hops graph_neighbors,
      r.source = "vector") ∧
    (vectorPhase vdb gdb qvec top_k graph_hops graph_neighbors).Pairwise
      (fun a b => a.score ≤ b.score) ∧
    (∀ r ∈ graphPhase vdb gdb qvec top_k graph_hops graph_neighbors,
      r.source = "graph" ∧ r.score = 999) := by
  have hvsrc : ∀ r ∈ vectorPhase vdb gdb qvec top_k graph_hops graph_neighbors,
      r.source = "vector" := annotatedVectorResults_source _ _
  have hvsort : (vectorPhase vdb gdb qvec top_k graph_hops graph_neighbors).Pairwise
      (fun a b => a.score ≤ b.score) :=
    annotatedVectorResults_sorted _ _ (search_similar_sorted vdb qvec top_k)
  have hgprops : ∀ r ∈ graphPhase vdb gdb qvec top_k graph_hops graph_neighbors,
      r.source = "graph" ∧ r.score = 999 := graphOriginResults_props _ _ _
  refine ⟨?_, hvsrc, hvsort, hgprops⟩
  rw [retrieve_eq_of_embed ecap vdb gdb query top_k graph_hops graph_neighbors qvec he]
  by_cases hv : (search_similar vdb qvec top_k).isEmpty
  · have hnil : search_similar vdb qvec top_k = [] := by
      cases hsearch : search_similar vdb qvec top_k with
      | nil => rfl
      | cons a l => rw [hsearch] at hv; simp at hv
    rw [if_pos hv]
    show ([] : List RAGResult) = _
    unfold vectorPhase graphPhase annotatedVectorResults vectorRagResults
      graphOriginResults feature_ids_of
    rw [hnil]
    simp only [List.map_nil]
    rw [expand_neighbors_nil_nodes]
    simp
  · rw [if_neg hv]
    show (vectorPhase vdb gdb qvec top_k graph_hops graph_neighbors
        ++ graphPhase vdb gdb qvec top_k graph_hops graph_neighbors).mergeSort ragLE = _
    apply List.mergeSort_of_sorted
    rw [List.pairwise_append]
    refine ⟨?_, ?_, ?_⟩
    · refine hvsort.imp_of_mem ?_
      intro a b ha hb hab
      have hsa := hvsrc a ha
      have hsb := hvsrc b hb
      simp [ragLE, hsa, hsb, hab]
    · refine pairwise_of_mem_prop _ hgprops ?_
      intro a b ⟨hsa, hva⟩ ⟨hsb, hvb⟩
      simp [ragLE, hsa, hsb, hva, hvb]
    · intro a ha b hb
      have hsa := hvsrc a ha
      have hsb := (hgprops b hb).1
      simp [ragLE, hsa, hsb]

/-- Concrete stores for the C5 witness. -/
def wVdb : VectorState := { records := [wRecord], embeddings := [("r1", [1, 0])] }

/-- Witness for C5: one vector hit over an empty graph; the result list
decomposes as vector phase followed by graph phase. -/
theorem retrieve_sort_order_witness :
    (retrieve (fun _ => some [1, 0]) wVdb {} "q" 1 0 5).results
      = vectorPhase wVdb {} [1, 0] 1 0 5 ++ graphPhase wVdb {} [1, 0] 1 0 5 :=
  (retrieve_sort_order (fun _ => some [1, 0]) wVdb {} "q" 1 0 5 [1, 0] rfl).1

end SovereignShell
